import Mathlib

/-!
# Verification of the NDC-connect auth helper core

A shallow embedding of the claim-validation and authorization-resolution
engine from `src/lib.rs`, together with theorems checking the specification's
statements about it.

Strings are embedded as Lean `String`; Rust `str::contains` (substring
containment) is modelled on the underlying character lists, as is
`str::split('/')`.
-/

namespace NfNdcConnect

/-- `IdpRoleData` from `src/lib.rs`: owner (org/tenant scope), name,
optional display name, optional description. -/
structure IdpRoleData where
  owner : String
  name : String
  display_name : Option String
  description : Option String
  deriving DecidableEq

/-- `IdpPermissionData` from `src/lib.rs`: owner and name. -/
structure IdpPermissionData where
  owner : String
  name : String
  deriving DecidableEq

/-- `IdpClaims` from `src/lib.rs`: the decoded token payload.  The
`properties` map is embedded as an association list; it is never consulted
by the core logic. -/
structure IdpClaims where
  sub : String
  exp : Int
  iss : Option String
  is_admin : Bool
  roles : Option (List IdpRoleData)
  groups : Option (List String)
  permissions : Option (List IdpPermissionData)
  properties : Option (List (String × String))
  deriving DecidableEq

/-- `RoleSummary` output structure from `src/lib.rs`. -/
structure RoleSummary where
  name : String
  description : String
  deriving DecidableEq

/-- `PermissionSummary` output structure from `src/lib.rs`. -/
structure PermissionSummary where
  name : String
  description : String
  deriving DecidableEq

/-- `OrgAuthSummary` output structure from `src/lib.rs`. -/
structure OrgAuthSummary where
  org_id : String
  org_name : String
  is_default : Bool
  roles : List RoleSummary
  permissions : List PermissionSummary
  deriving DecidableEq

/-- Rust `str::contains(&pat)` on the character lists: `pat` occurs as a
contiguous substring of `s`.  Implemented as: some suffix of `s.data` has
`pat.data` as a prefix (matching a valid UTF-8 pattern inside a valid UTF-8
string always falls on character boundaries, so byte-level containment
coincides with character-level containment). -/
def containsSub (pat : List Char) : List Char → Bool
  | [] => pat.isEmpty
  | c :: cs => pat.isPrefixOf (c :: cs) || containsSub pat cs

/-- `s.contains(&pat)` for Rust strings. -/
def strContains (s pat : String) : Bool :=
  containsSub pat.data s.data

/-- Rust `str::split(c)` on the character list: splits at every occurrence
of `c`, keeping empty segments; the empty string yields one empty segment. -/
def splitChar (c : Char) : List Char → List (List Char)
  | [] => [[]]
  | x :: xs =>
    if x == c then [] :: splitChar c xs
    else
      match splitChar c xs with
      | [] => [[x]]
      | seg :: rest => (x :: seg) :: rest

/-- `group.split('/').last().unwrap_or(group).to_string()` from
`get_org_authorisations` in `src/lib.rs`. -/
def orgNameOf (group : String) : String :=
  match (splitChar '/' group.data).getLast? with
  | some seg => ⟨seg⟩
  | none => group

/-- The role-to-summary mapping closure in `get_org_authorisations`:
`RoleSummary { name, description: r.description.clone().unwrap_or_default() }`. -/
def mkRoleSummary (r : IdpRoleData) : RoleSummary :=
  { name := r.name, description := r.description.getD "" }

/-- The permission-to-summary mapping closure in `get_org_authorisations`:
`PermissionSummary { name, description: "Permission details" }`. -/
def mkPermissionSummary (p : IdpPermissionData) : PermissionSummary :=
  { name := p.name, description := "Permission details" }

/-- One iteration of the loop in `get_org_authorisations`: the summary built
for the group at index `i`. -/
def orgSummaryOfGroup (all_roles : List IdpRoleData) (all_perms : List IdpPermissionData)
    (i : Nat) (group : String) : OrgAuthSummary :=
  { org_id := group
    org_name := orgNameOf group
    is_default := i == 0
    roles := (all_roles.filter (fun r => strContains group r.owner)).map mkRoleSummary
    permissions := (all_perms.filter (fun p => strContains group p.owner)).map mkPermissionSummary }

/-- The `for (i, group) in groups.iter().enumerate()` loop of
`get_org_authorisations`, with `i` the index of the head of the remaining
group list. -/
def summarizeGroups (all_roles : List IdpRoleData) (all_perms : List IdpPermissionData) :
    Nat → List String → List OrgAuthSummary
  | _, [] => []
  | i, g :: gs =>
    orgSummaryOfGroup all_roles all_perms i g :: summarizeGroups all_roles all_perms (i + 1) gs

/-- The claims-to-summaries part of `get_org_authorisations` (everything after
token validation): absent lists default to empty via `unwrap_or_default`. -/
def summarizeClaims (claims : IdpClaims) : List OrgAuthSummary :=
  summarizeGroups (claims.roles.getD []) (claims.permissions.getD []) 0 (claims.groups.getD [])

/-- The `Validation` configuration held by the helper; only the clock-skew
leeway matters to the core logic (the algorithm is fixed to RS256). -/
structure Validation where
  leeway : Int
  deriving DecidableEq

/-- Modelled from the spec: the decode step performed by the external JWT
library (`jsonwebtoken::decode`), which is not part of this repository.
`decodes` abstracts structural parsing and RSA-signature verification of the
three-segment token against the loaded public key; `claims` is the decoded
payload when that succeeds. -/
structure TokenModel where
  decodes : Bool
  claims : IdpClaims
  deriving DecidableEq

/-- Modelled from the spec: the standard-claim verification done by the
external JWT library — the expiry claim is verified against current time
allowing the configured clock-skew leeway, and any structural, signature, or
expiry failure yields a single error kind carrying a descriptive message. -/
def jwtDecode (v : Validation) (tok : TokenModel) (now : Int) : Except String IdpClaims :=
  if tok.decodes then
    if tok.claims.exp < now - v.leeway then
      Except.error "JWT Validation Failed: ExpiredSignature"
    else
      Except.ok tok.claims
  else
    Except.error "JWT Validation Failed: InvalidToken"

/-- The `AuthHelper` engine: holds the validation policy constructed by
`AuthHelper::new` (the decoding key lives inside the abstract decode step). -/
structure AuthHelper where
  validation : Validation
  deriving DecidableEq

/-- `AuthHelper::new` from `src/lib.rs`: constructs the validation policy
with `validation.leeway = 60`. -/
def AuthHelper.new : AuthHelper :=
  { validation := { leeway := 60 } }

/-- `AuthHelper::is_valid` from `src/lib.rs`: decode and verify the token,
returning the claims on success. -/
def AuthHelper.is_valid (h : AuthHelper) (tok : TokenModel) (now : Int) :
    Except String IdpClaims :=
  jwtDecode h.validation tok now

/-- `AuthHelper::get_org_authorisations` from `src/lib.rs`. -/
def AuthHelper.get_org_authorisations (h : AuthHelper) (tok : TokenModel) (now : Int) :
    Except String (List OrgAuthSummary) :=
  match h.is_valid tok now with
  | Except.error e => Except.error e
  | Except.ok claims => Except.ok (summarizeClaims claims)

/-- `AuthHelper::resolve_target_org` from `src/lib.rs`: explicit org id wins;
otherwise exactly one group is used, zero groups is a no-context error, and
two or more groups is an ambiguity error naming the candidate count. -/
def resolve_target_org (claims : IdpClaims) (org_id : Option String) : Except String String :=
  match org_id with
  | some id => Except.ok id
  | none =>
    match claims.groups.getD [] with
    | [g] => Except.ok g
    | [] => Except.error "No Org ID provided and no groups found in token."
    | gs =>
      Except.error
        ("Ambiguous Org context: Token contains " ++ toString gs.length
          ++ " groups; explicit Org ID required.")

/-- The post-validation part of `AuthHelper::has_role` from `src/lib.rs`. -/
def has_role_claims (claims : IdpClaims) (org_id : Option String) (role_name : String) :
    Except String Bool :=
  match resolve_target_org claims org_id with
  | Except.error e => Except.error e
  | Except.ok target_org =>
    match claims.roles with
    | some roles =>
      Except.ok (roles.any (fun r => r.name == role_name && strContains target_org r.owner))
    | none => Except.ok false

/-- The post-validation part of `AuthHelper::has_permission` from `src/lib.rs`. -/
def has_permission_claims (claims : IdpClaims) (org_id : Option String) (perm_name : String) :
    Except String Bool :=
  match resolve_target_org claims org_id with
  | Except.error e => Except.error e
  | Except.ok target_org =>
    match claims.permissions with
    | some perms =>
      Except.ok (perms.any (fun p => p.name == perm_name && strContains target_org p.owner))
    | none => Except.ok false

/-- `AuthHelper::has_role` from `src/lib.rs`: validate, resolve the target
org, then search the role list. -/
def AuthHelper.has_role (h : AuthHelper) (tok : TokenModel) (now : Int)
    (org_id : Option String) (role_name : String) : Except String Bool :=
  match h.is_valid tok now with
  | Except.error e => Except.error e
  | Except.ok claims => has_role_claims claims org_id role_name

/-- `AuthHelper::has_permission` from `src/lib.rs`. -/
def AuthHelper.has_permission (h : AuthHelper) (tok : TokenModel) (now : Int)
    (org_id : Option String) (perm_name : String) : Except String Bool :=
  match h.is_valid tok now with
  | Except.error e => Except.error e
  | Except.ok claims => has_permission_claims claims org_id perm_name

/-- `PyIdpAuthHelper::is_valid` from `src/lib.rs`:
`self.inner.is_valid(&jwt).is_ok()` — boolean-only, never propagates. -/
def PyIdpAuthHelper.is_valid (h : AuthHelper) (tok : TokenModel) (now : Int) : Bool :=
  match AuthHelper.is_valid h tok now with
  | Except.ok _ => true
  | Except.error _ => false

/-- `WasmIdpAuthHelper::is_valid` from `src/lib.rs`: the same
`self.inner.is_valid(jwt).is_ok()` boolean-only wrapper. -/
def WasmIdpAuthHelper.is_valid (h : AuthHelper) (tok : TokenModel) (now : Int) : Bool :=
  match AuthHelper.is_valid h tok now with
  | Except.ok _ => true
  | Except.error _ => false

/-- The spec's description of the display name, stated in its own words:
the substring after the last `/` in the group string, or the whole string if
no `/` is present. -/
def lastSegmentSpec (c : Char) : List Char → List Char
  | [] => []
  | x :: xs =>
    if c ∈ xs then lastSegmentSpec c xs
    else if x = c then xs
    else x :: xs

/-! ## Helper lemmas -/

/-- `containsSub` decides substring containment: `pat` occurs contiguously in
`l` exactly when `pat` is an infix of `l`. -/
theorem containsSub_iff (pat l : List Char) : containsSub pat l = true ↔ pat <:+: l := by
  induction l with
  | nil =>
    simp only [containsSub, List.isEmpty_iff]
    constructor
    · rintro rfl
      exact ⟨[], [], rfl⟩
    · rintro ⟨s, t, h⟩
      rcases List.append_eq_nil.mp h with ⟨h₁, h₂⟩
      exact (List.append_eq_nil.mp h₁).2
  | cons c cs ih =>
    simp only [containsSub, Bool.or_eq_true, List.isPrefixOf_iff_prefix, ih,
      List.infix_cons_iff]

theorem strContains_iff (s pat : String) : strContains s pat = true ↔ pat.data <:+: s.data :=
  containsSub_iff pat.data s.data

theorem strContains_empty (s : String) : strContains s "" = true :=
  (strContains_iff s "").mpr ⟨[], s.data, rfl⟩

/-- `summarizeGroups` produces one summary per group. -/
theorem summarizeGroups_length (R : List IdpRoleData) (P : List IdpPermissionData)
    (i : Nat) (gs : List String) : (summarizeGroups R P i gs).length = gs.length := by
  induction gs generalizing i with
  | nil => rfl
  | cons g gs ih => simp [summarizeGroups, ih]

/-- The `j`-th summary produced by the loop started at index `i` is the one
built for the `j`-th remaining group, carrying loop index `i + j`. -/
theorem summarizeGroups_get? (R : List IdpRoleData) (P : List IdpPermissionData)
    (i : Nat) (gs : List String) (j : Nat) :
    (summarizeGroups R P i gs).get? j =
      (gs.get? j).map (fun g => orgSummaryOfGroup R P (i + j) g) := by
  induction gs generalizing i j with
  | nil => simp [summarizeGroups]
  | cons g gs ih =>
    cases j with
    | zero => simp [summarizeGroups]
    | succ j =>
      simp only [summarizeGroups, List.get?]
      rw [ih]
      have : i + 1 + j = i + (j + 1) := by omega
      rw [this]

theorem summarizeClaims_get? (claims : IdpClaims) (j : Nat) :
    (summarizeClaims claims).get? j =
      ((claims.groups.getD []).get? j).map
        (fun g => orgSummaryOfGroup (claims.roles.getD []) (claims.permissions.getD []) j g) := by
  unfold summarizeClaims
  rw [summarizeGroups_get?]
  simp

/-- Splitting never yields an empty segment list. -/
theorem splitChar_ne_nil (c : Char) (l : List Char) : splitChar c l ≠ [] := by
  cases l with
  | nil => simp [splitChar]
  | cons x xs =>
    simp only [splitChar]
    split
    · simp
    · split <;> simp

/-- Splitting at a character that does not occur returns the whole list as
the single segment. -/
theorem splitChar_of_not_mem (c : Char) (l : List Char) (h : c ∉ l) :
    splitChar c l = [l] := by
  induction l with
  | nil => rfl
  | cons x xs ih =>
    have hx : ¬ x = c := fun he => h (he ▸ List.mem_cons_self x xs)
    have hxs : c ∉ xs := fun hm => h (List.mem_cons_of_mem x hm)
    simp only [splitChar, beq_iff_eq, if_neg hx, ih hxs]

/-- Splitting at a character that occurs yields at least two segments. -/
theorem splitChar_two_le (c : Char) (l : List Char) (h : c ∈ l) :
    2 ≤ (splitChar c l).length := by
  induction l with
  | nil => cases h
  | cons x xs ih =>
    simp only [splitChar]
    by_cases hx : x = c
    · rw [if_pos (beq_iff_eq.mpr hx)]
      have := splitChar_ne_nil c xs
      cases hS : splitChar c xs with
      | nil => exact absurd hS this
      | cons seg rest => simp
    · rw [if_neg (by simpa using hx)]
      have hm : c ∈ xs := by
        rcases List.mem_cons.mp h with h' | h'
        · exact absurd h'.symm hx
        · exact h'
      cases hS : splitChar c xs with
      | nil => exact absurd hS (splitChar_ne_nil c xs)
      | cons seg rest =>
        have := ih hm
        rw [hS] at this
        simpa using this

/-- If the separator never occurs, the spec's last segment is the whole list. -/
theorem lastSegmentSpec_of_not_mem (c : Char) (l : List Char) (h : c ∉ l) :
    lastSegmentSpec c l = l := by
  induction l with
  | nil => rfl
  | cons x xs ih =>
    have hx : ¬ x = c := fun he => h (he ▸ List.mem_cons_self x xs)
    have hxs : c ∉ xs := fun hm => h (List.mem_cons_of_mem x hm)
    simp [lastSegmentSpec, hxs, hx]

/-- The last segment produced by splitting is exactly the spec's description:
the part after the last separator, or the whole list when none occurs. -/
theorem splitChar_getLast? (c : Char) (l : List Char) :
    (splitChar c l).getLast? = some (lastSegmentSpec c l) := by
  induction l with
  | nil => rfl
  | cons x xs ih =>
    simp only [splitChar, lastSegmentSpec]
    by_cases hx : x = c
    · rw [if_pos (beq_iff_eq.mpr hx), if_pos hx]
      cases hS : splitChar c xs with
      | nil => exact absurd hS (splitChar_ne_nil c xs)
      | cons seg rest =>
        rw [List.getLast?_cons_cons, ← hS, ih]
        by_cases hm : c ∈ xs
        · rw [if_pos hm]
        · rw [if_neg hm, lastSegmentSpec_of_not_mem c xs hm]
    · rw [if_neg (by simpa using hx), if_neg hx]
      cases hS : splitChar c xs with
      | nil => exact absurd hS (splitChar_ne_nil c xs)
      | cons seg rest =>
        by_cases hm : c ∈ xs
        · have h2 := splitChar_two_le c xs hm
          rw [hS] at h2
          cases rest with
          | nil => simp at h2
          | cons r rs =>
            rw [if_pos hm, List.getLast?_cons_cons, ← List.getLast?_cons_cons (b := r),
              show seg :: r :: rs = splitChar c xs from hS.symm, ih]
        · rw [splitChar_of_not_mem c xs hm] at hS
          cases hS
          rw [if_neg hm]
          rfl

/-- `orgNameOf` satisfies the spec's description of the display name. -/
theorem orgNameOf_eq_lastSegmentSpec (g : String) :
    orgNameOf g = ⟨lastSegmentSpec '/' g.data⟩ := by
  unfold orgNameOf
  rw [splitChar_getLast?]

/-- Once the target org is resolved, `has_role` answers by searching the role
list (an absent list behaves as the empty list). -/
theorem has_role_claims_ok (claims : IdpClaims) (oid : Option String) (n target : String)
    (h : resolve_target_org claims oid = Except.ok target) :
    has_role_claims claims oid n
      = Except.ok ((claims.roles.getD []).any
          (fun r => r.name == n && strContains target r.owner)) := by
  unfold has_role_claims
  rw [h]
  cases hr : claims.roles <;> simp [hr]

/-- Once the target org is resolved, `has_permission` answers by searching
the permission list (an absent list behaves as the empty list). -/
theorem has_permission_claims_ok (claims : IdpClaims) (oid : Option String) (n target : String)
    (h : resolve_target_org claims oid = Except.ok target) :
    has_permission_claims claims oid n
      = Except.ok ((claims.permissions.getD []).any
          (fun p => p.name == n && strContains target p.owner)) := by
  unfold has_permission_claims
  rw [h]
  cases hp : claims.permissions <;> simp [hp]

/-- A concrete claims value used by the witnesses below. -/
def exClaims (groups : Option (List String)) (roles : Option (List IdpRoleData))
    (perms : Option (List IdpPermissionData)) : IdpClaims :=
  { sub := "user", exp := 100, iss := none, is_admin := false,
    roles := roles, groups := groups, permissions := perms, properties := none }

/-! ## Claim theorems -/

/-- C1: For every validated TokenClaims, a role entry or permission entry
appears in the OrgAuthSummary produced for a group G if and only if the
group string G contains the entry's owner string as a substring (substring
containment, not exact equality); consequently one entry may appear under
several groups' summaries when its owner is a substring of more than one
group identifier. -/
theorem summary_membership_iff_contains (claims : IdpClaims) :
    (∀ a b : String, strContains a b = true ↔ b.data <:+: a.data)
    ∧ ∀ i g s, (claims.groups.getD []).get? i = some g →
        (summarizeClaims claims).get? i = some s →
        s.roles = ((claims.roles.getD []).filter
            (fun r => strContains g r.owner)).map mkRoleSummary
        ∧ s.permissions = ((claims.permissions.getD []).filter
            (fun p => strContains g p.owner)).map mkPermissionSummary
        ∧ (∀ r ∈ claims.roles.getD [], strContains g r.owner = true →
            mkRoleSummary r ∈ s.roles)
        ∧ (∀ p ∈ claims.permissions.getD [], strContains g p.owner = true →
            mkPermissionSummary p ∈ s.permissions)
        ∧ (∀ rs ∈ s.roles, ∃ r, r ∈ claims.roles.getD []
            ∧ strContains g r.owner = true ∧ mkRoleSummary r = rs)
        ∧ (∀ ps ∈ s.permissions, ∃ p, p ∈ claims.permissions.getD []
            ∧ strContains g p.owner = true ∧ mkPermissionSummary p = ps) := by
  refine ⟨strContains_iff, ?_⟩
  intro i g s hg hs
  rw [summarizeClaims_get?, hg] at hs
  simp only [Option.map_some'] at hs
  cases hs
  refine ⟨rfl, rfl, ?_, ?_, ?_, ?_⟩
  · intro r hr hc
    exact List.mem_map.mpr ⟨r, List.mem_filter.mpr ⟨hr, hc⟩, rfl⟩
  · intro p hp hc
    exact List.mem_map.mpr ⟨p, List.mem_filter.mpr ⟨hp, hc⟩, rfl⟩
  · intro rs hrs
    rcases List.mem_map.mp hrs with ⟨r, hrf, hre⟩
    rcases List.mem_filter.mp hrf with ⟨hrm, hrc⟩
    exact ⟨r, hrm, hrc, hre⟩
  · intro ps hps
    rcases List.mem_map.mp hps with ⟨p, hpf, hpe⟩
    rcases List.mem_filter.mp hpf with ⟨hpm, hpc⟩
    exact ⟨p, hpm, hpc, hpe⟩

/-- Witness for C1: the role with owner `"acme"` appears in the summary of
group `"acme/eng"` (substring, not equality). -/
theorem summary_membership_iff_contains_witness :
    mkRoleSummary ⟨"acme", "admin", none, none⟩ ∈
      (orgSummaryOfGroup [⟨"acme", "admin", none, none⟩] [] 0 "acme/eng").roles :=
  ((summary_membership_iff_contains
        (exClaims (some ["acme/eng"]) (some [⟨"acme", "admin", none, none⟩]) none)).2
      0 "acme/eng" (orgSummaryOfGroup [⟨"acme", "admin", none, none⟩] [] 0 "acme/eng")
      rfl rfl).2.2.1
    ⟨"acme", "admin", none, none⟩ (List.Mem.head _) (by decide)

/-- C2: For every validated TokenClaims whose group list has N elements,
summarization returns exactly N OrgAuthSummary values, the i-th summary
corresponding to the i-th group in the token's group order, with the summary
at index 0 having is_default = true and every other summary having
is_default = false. -/
theorem summaries_count_order_default (claims : IdpClaims) :
    (summarizeClaims claims).length = (claims.groups.getD []).length
    ∧ (∀ i, ((summarizeClaims claims).get? i).map OrgAuthSummary.org_id
        = (claims.groups.getD []).get? i)
    ∧ ∀ i s, (summarizeClaims claims).get? i = some s → (s.is_default = true ↔ i = 0) := by
  refine ⟨?_, ?_, ?_⟩
  · unfold summarizeClaims
    exact summarizeGroups_length _ _ 0 _
  · intro i
    rw [summarizeClaims_get?]
    cases hg : (claims.groups.getD []).get? i <;> simp [orgSummaryOfGroup]
  · intro i s hs
    rw [summarizeClaims_get?] at hs
    cases hg : (claims.groups.getD []).get? i with
    | none => rw [hg] at hs; cases hs
    | some g =>
      rw [hg] at hs
      simp only [Option.map_some'] at hs
      cases hs
      simp [orgSummaryOfGroup]

/-- Witness for C2: with groups `["a", "b"]` the summary at index 1 is not
the default. -/
theorem summaries_count_order_default_witness :
    (orgSummaryOfGroup [] [] 1 "b").is_default = true ↔ 1 = 0 :=
  (summaries_count_order_default (exClaims (some ["a", "b"]) none none)).2.2
    1 (orgSummaryOfGroup [] [] 1 "b") rfl

/-- C5: For every group in a validated token, the produced OrgAuthSummary
has org_id equal to the group string verbatim, org_name equal to the
substring after the last '/' in the group string (or the whole string if no
'/' is present), each matching role mapped to (name,
description-or-empty-string when the role's description is absent), and each
matching permission mapped to (name, a fixed placeholder description
string). -/
theorem summary_fields (claims : IdpClaims) :
    ∀ i g s, (claims.groups.getD []).get? i = some g →
      (summarizeClaims claims).get? i = some s →
      s.org_id = g
      ∧ s.org_name = ⟨lastSegmentSpec '/' g.data⟩
      ∧ (('/' : Char) ∉ g.data → s.org_name = g)
      ∧ s.roles = ((claims.roles.getD []).filter (fun r => strContains g r.owner)).map
          (fun r => (⟨r.name, r.description.getD ""⟩ : RoleSummary))
      ∧ s.permissions = ((claims.permissions.getD []).filter
          (fun p => strContains g p.owner)).map
          (fun p => (⟨p.name, "Permission details"⟩ : PermissionSummary)) := by
  intro i g s hg hs
  rw [summarizeClaims_get?, hg] at hs
  simp only [Option.map_some'] at hs
  cases hs
  refine ⟨rfl, orgNameOf_eq_lastSegmentSpec g, ?_, rfl, rfl⟩
  intro hns
  show orgNameOf g = g
  rw [orgNameOf_eq_lastSegmentSpec g, lastSegmentSpec_of_not_mem '/' g.data hns]

/-- Witness for C5: for group `"acme/eng"` the display name is the segment
after the last slash. -/
theorem summary_fields_witness :
    (orgSummaryOfGroup [] [] 0 "acme/eng").org_name
      = ⟨lastSegmentSpec '/' "acme/eng".data⟩ :=
  (summary_fields (exClaims (some ["acme/eng"]) none none)
      0 "acme/eng" (orgSummaryOfGroup [] [] 0 "acme/eng") rfl rfl).2.1

/-- C6: Summarization over a TokenClaims value is total and cannot fail: for
every TokenClaims, including one whose groups, roles, or permissions fields
are absent, the summary derivation succeeds, treating each absent list as
empty (an absent groups list yields an empty summary list rather than an
error).  (`summarizeClaims` is a total function by construction.) -/
theorem summarize_total (claims : IdpClaims) :
    (claims.groups = none → summarizeClaims claims = [])
    ∧ summarizeClaims claims
        = summarizeClaims { claims with
            groups := some (claims.groups.getD []),
            roles := some (claims.roles.getD []),
            permissions := some (claims.permissions.getD []) } := by
  constructor
  · intro h
    simp [summarizeClaims, h, summarizeGroups]
  · simp [summarizeClaims]

/-- Witness for C6: a claims value with no groups field summarizes to the
empty list. -/
theorem summarize_total_witness : summarizeClaims (exClaims none none none) = [] :=
  (summarize_total (exClaims none none none)).1 rfl

/-- C3: For every predicate call (has_role or has_permission) on a token
that validates: if an explicit org_id is supplied it is used verbatim as the
target organization; otherwise if the claims' group list has exactly one
entry that entry is used; otherwise if the group list is empty the call
fails with a no-organization-context error; otherwise (two or more groups)
the call fails with an ambiguity error whose message includes the number of
candidate groups. -/
theorem resolve_org_cases (claims : IdpClaims) (oid : Option String) (n : String) :
    (∀ id, oid = some id → resolve_target_org claims oid = Except.ok id)
    ∧ (oid = none → ∀ g, claims.groups.getD [] = [g] →
        resolve_target_org claims oid = Except.ok g)
    ∧ (oid = none → claims.groups.getD [] = [] →
        has_role_claims claims oid n
          = Except.error "No Org ID provided and no groups found in token."
        ∧ has_permission_claims claims oid n
          = Except.error "No Org ID provided and no groups found in token.")
    ∧ (oid = none → 2 ≤ (claims.groups.getD []).length →
        has_role_claims claims oid n
          = Except.error ("Ambiguous Org context: Token contains "
              ++ toString (claims.groups.getD []).length
              ++ " groups; explicit Org ID required.")
        ∧ has_permission_claims claims oid n
          = Except.error ("Ambiguous Org context: Token contains "
              ++ toString (claims.groups.getD []).length
              ++ " groups; explicit Org ID required.")) := by
  refine ⟨?_, ?_, ?_, ?_⟩
  · rintro id rfl
    rfl
  · rintro rfl g hg
    simp [resolve_target_org, hg]
  · rintro rfl hg
    constructor <;>
      simp [has_role_claims, has_permission_claims, resolve_target_org, hg]
  · rintro rfl h2
    cases hg : claims.groups.getD [] with
    | nil => rw [hg] at h2; simp at h2
    | cons a tl =>
      cases tl with
      | nil => rw [hg] at h2; simp at h2
      | cons b tl2 =>
        rw [hg] at h2
        constructor <;>
          simp [has_role_claims, has_permission_claims, resolve_target_org, hg]

/-- Witness for C3: two groups and no explicit org id produce the ambiguity
error naming 2 candidates. -/
theorem resolve_org_cases_witness :
    has_role_claims (exClaims (some ["acme/eng", "acme/sales"]) none none) none "admin"
      = Except.error ("Ambiguous Org context: Token contains "
          ++ toString ((exClaims (some ["acme/eng", "acme/sales"]) none none).groups.getD
              ([] : List String)).length
          ++ " groups; explicit Org ID required.") :=
  ((resolve_org_cases (exClaims (some ["acme/eng", "acme/sales"]) none none) none
      "admin").2.2.2 rfl (by decide)).1

/-- C4: For every predicate call on a valid token with a resolvable target
organization, has_role (resp. has_permission) returns Ok(true) if and only
if some entry in the roles (resp. permissions) list has name equal to the
requested name and owner that is a substring of the resolved target
organization string; it returns Ok(false) when the relevant list is absent
or no entry matches; and it never converts a no-context or ambiguity failure
into Ok(false) — those failures are propagated as errors. -/
theorem predicate_search (claims : IdpClaims) (oid : Option String) (n : String) :
    (∀ org, resolve_target_org claims oid = Except.ok org →
      (has_role_claims claims oid n = Except.ok true
          ↔ ∃ r ∈ claims.roles.getD [], r.name = n ∧ strContains org r.owner = true)
      ∧ (has_role_claims claims oid n = Except.ok false
          ↔ ¬ ∃ r ∈ claims.roles.getD [], r.name = n ∧ strContains org r.owner = true)
      ∧ (has_permission_claims claims oid n = Except.ok true
          ↔ ∃ p ∈ claims.permissions.getD [], p.name = n ∧ strContains org p.owner = true)
      ∧ (has_permission_claims claims oid n = Except.ok false
          ↔ ¬ ∃ p ∈ claims.permissions.getD [], p.name = n ∧ strContains org p.owner = true))
    ∧ (∀ e, resolve_target_org claims oid = Except.error e →
        has_role_claims claims oid n = Except.error e
        ∧ has_permission_claims claims oid n = Except.error e) := by
  constructor
  · intro org h
    rw [has_role_claims_ok claims oid n org h, has_permission_claims_ok claims oid n org h]
    refine ⟨?_, ?_, ?_, ?_⟩ <;>
      simp [List.any_eq_true, List.any_eq_false, Bool.and_eq_true, beq_iff_eq,
        and_assoc]
  · intro e h
    constructor
    · unfold has_role_claims
      rw [h]
    · unfold has_permission_claims
      rw [h]

/-- Witness for C4: a role with owner `"acme"` and matching name makes
has_role answer Ok(true) for the explicitly supplied org `"acme/eng"`. -/
theorem predicate_search_witness :
    has_role_claims (exClaims none (some [⟨"acme", "admin", none, none⟩]) none)
        (some "acme/eng") "admin" = Except.ok true :=
  ((predicate_search (exClaims none (some [⟨"acme", "admin", none, none⟩]) none)
        (some "acme/eng") "admin").1 "acme/eng" rfl).1.mpr
    ⟨⟨"acme", "admin", none, none⟩, List.Mem.head _, rfl, by decide⟩

/-- C9: When an explicit org_id is supplied to has_role or has_permission,
the token's group list is never consulted: for any two validated TokenClaims
that differ only in their groups field, the predicate with org_id = Some(o)
returns the same result, it never fails with a no-context or ambiguity
error, and the supplied organization is not required to appear in (or relate
to) the token's groups. -/
theorem explicit_org_ignores_groups (c : IdpClaims) (gs₁ gs₂ : Option (List String))
    (o n : String) :
    has_role_claims { c with groups := gs₁ } (some o) n
        = has_role_claims { c with groups := gs₂ } (some o) n
    ∧ (∃ b, has_role_claims { c with groups := gs₁ } (some o) n = Except.ok b)
    ∧ has_permission_claims { c with groups := gs₁ } (some o) n
        = has_permission_claims { c with groups := gs₂ } (some o) n
    ∧ (∃ b, has_permission_claims { c with groups := gs₁ } (some o) n = Except.ok b) := by
  have hr : ∀ gs : Option (List String),
      has_role_claims { c with groups := gs } (some o) n
        = Except.ok ((c.roles.getD []).any
            (fun r => r.name == n && strContains o r.owner)) :=
    fun gs => has_role_claims_ok { c with groups := gs } (some o) n o rfl
  have hp : ∀ gs : Option (List String),
      has_permission_claims { c with groups := gs } (some o) n
        = Except.ok ((c.permissions.getD []).any
            (fun p => p.name == n && strContains o p.owner)) :=
    fun gs => has_permission_claims_ok { c with groups := gs } (some o) n o rfl
  exact ⟨(hr gs₁).trans (hr gs₂).symm, ⟨_, hr gs₁⟩,
    (hp gs₁).trans (hp gs₂).symm, ⟨_, hp gs₁⟩⟩

/-- C10: An entry whose owner is the empty string matches every
organization: for every validated TokenClaims, a role or permission entry
with owner = "" appears in the summary of every group in the token, and
satisfies the predicate's owner-containment check for every resolved target
organization (so has_role/has_permission returns true whenever such an
entry's name equals the requested name). -/
theorem empty_owner_matches_all (c : IdpClaims) (s : String) (r : IdpRoleData)
    (p : IdpPermissionData) (n : String) (oid : Option String) :
    strContains s "" = true
    ∧ (r ∈ c.roles.getD [] → r.owner = "" → ∀ i g, (c.groups.getD []).get? i = some g →
        ∃ t, (summarizeClaims c).get? i = some t ∧ mkRoleSummary r ∈ t.roles)
    ∧ (p ∈ c.permissions.getD [] → p.owner = "" → ∀ i g,
        (c.groups.getD []).get? i = some g →
        ∃ t, (summarizeClaims c).get? i = some t ∧ mkPermissionSummary p ∈ t.permissions)
    ∧ (∀ org, resolve_target_org c oid = Except.ok org → r ∈ c.roles.getD [] →
        r.owner = "" → r.name = n → has_role_claims c oid n = Except.ok true)
    ∧ (∀ org, resolve_target_org c oid = Except.ok org → p ∈ c.permissions.getD [] →
        p.owner = "" → p.name = n → has_permission_claims c oid n = Except.ok true) := by
  refine ⟨strContains_empty s, ?_, ?_, ?_, ?_⟩
  · intro hr how i g hg
    refine ⟨orgSummaryOfGroup (c.roles.getD []) (c.permissions.getD []) i g, ?_, ?_⟩
    · rw [summarizeClaims_get?, hg]
      rfl
    · exact List.mem_map.mpr
        ⟨r, List.mem_filter.mpr ⟨hr, by rw [how]; exact strContains_empty g⟩, rfl⟩
  · intro hp how i g hg
    refine ⟨orgSummaryOfGroup (c.roles.getD []) (c.permissions.getD []) i g, ?_, ?_⟩
    · rw [summarizeClaims_get?, hg]
      rfl
    · exact List.mem_map.mpr
        ⟨p, List.mem_filter.mpr ⟨hp, by rw [how]; exact strContains_empty g⟩, rfl⟩
  · intro org hres hr how hname
    rw [has_role_claims_ok c oid n org hres]
    refine congrArg Except.ok (List.any_eq_true.mpr ⟨r, hr, ?_⟩)
    rw [how, hname]
    simp [strContains_empty]
  · intro org hres hp how hname
    rw [has_permission_claims_ok c oid n org hres]
    refine congrArg Except.ok (List.any_eq_true.mpr ⟨p, hp, ?_⟩)
    rw [how, hname]
    simp [strContains_empty]

/-- Witness for C10: a role with empty owner and matching name yields
Ok(true) for an arbitrary explicitly supplied org. -/
theorem empty_owner_matches_all_witness :
    has_role_claims (exClaims none (some [⟨"", "admin", none, none⟩]) none)
        (some "whatever/org") "admin" = Except.ok true :=
  (empty_owner_matches_all (exClaims none (some [⟨"", "admin", none, none⟩]) none)
      "x" ⟨"", "admin", none, none⟩ ⟨"", "p"⟩ "admin" (some "whatever/org")).2.2.2.1
    "whatever/org" rfl (List.Mem.head _) rfl rfl

/-- C7: Token validation applies a clock-skew leeway of exactly 60 seconds
to the expiry claim: for a token that is otherwise valid, an exp timestamp
30 seconds before the current time validates successfully, while an exp
timestamp 90 seconds before the current time fails validation. -/
theorem leeway_boundary (c : IdpClaims) (now : Int) :
    AuthHelper.new.validation.leeway = 60
    ∧ (c.exp = now - 30 →
        AuthHelper.is_valid AuthHelper.new { decodes := true, claims := c } now
          = Except.ok c)
    ∧ (c.exp = now - 90 →
        AuthHelper.is_valid AuthHelper.new { decodes := true, claims := c } now
          = Except.error "JWT Validation Failed: ExpiredSignature") := by
  refine ⟨rfl, ?_, ?_⟩
  · intro h
    show (if c.exp < now - (60 : Int) then
        (Except.error "JWT Validation Failed: ExpiredSignature" : Except String IdpClaims)
      else Except.ok c) = Except.ok c
    rw [if_neg (by omega)]
  · intro h
    show (if c.exp < now - (60 : Int) then
        (Except.error "JWT Validation Failed: ExpiredSignature" : Except String IdpClaims)
      else Except.ok c) = Except.error "JWT Validation Failed: ExpiredSignature"
    rw [if_pos (by omega)]

/-- A concrete claims value with a chosen expiry, used by the C7 witness. -/
def exClaimsExp (e : Int) : IdpClaims :=
  { exClaims none none none with exp := e }

/-- Witness for C7: a token expired 30 seconds before time 0 validates;
the leeway constant is 60. -/
theorem leeway_boundary_witness :
    AuthHelper.is_valid AuthHelper.new { decodes := true, claims := exClaimsExp (-30) } 0
      = Except.ok (exClaimsExp (-30)) :=
  (leeway_boundary (exClaimsExp (-30)) 0).2.1 rfl

/-- C8: For every token string, the boolean-only validity entry point
exposed at the boundary (identically in the Python and WASM adapters)
returns false when validation fails (for any reason) and true when
validation succeeds; it never propagates or raises the validation error. -/
theorem boundary_bool_only (h : AuthHelper) (tok : TokenModel) (now : Int) :
    PyIdpAuthHelper.is_valid h tok now = WasmIdpAuthHelper.is_valid h tok now
    ∧ (PyIdpAuthHelper.is_valid h tok now = true
        ↔ ∃ c, AuthHelper.is_valid h tok now = Except.ok c)
    ∧ (PyIdpAuthHelper.is_valid h tok now = false
        ↔ ∃ e, AuthHelper.is_valid h tok now = Except.error e) := by
  cases hv : AuthHelper.is_valid h tok now <;>
    simp [PyIdpAuthHelper.is_valid, WasmIdpAuthHelper.is_valid, hv]

end NfNdcConnect
